import Mathlib

/-!
Verification of the atomic-chess move engine (GameBoard.py / GamePiece.py).

The Python source is shallowly embedded: each method becomes a Lean
function of the same name (snake_case kept where legal).  Mutable state
(the `GameBoard` object) becomes an explicit `GameState` value that is
threaded through the functions; Python's in-place mutation of a `Pawn`
object during validation is modelled by writing the updated pawn back to
the board square it occupies.  A board access that would raise an
`IndexError` in Python is modelled by `none` in an `Option`-valued
result, so `make_move` returns `none` exactly when the Python call would
raise instead of returning.
-/

set_option maxRecDepth 10000
set_option linter.unusedVariables false

namespace AtomicChess

/-- Piece colour, Python strings "WHITE"/"BLACK". -/
inductive Color where
  | white
  | black
deriving DecidableEq, Repr

/-- The GamePiece class hierarchy (GamePiece.py).  Only `Pawn` carries the
extra `_is_first_turn` member (true until its first two-square attempt). -/
inductive Piece where
  | king (c : Color)
  | queen (c : Color)
  | rook (c : Color)
  | bishop (c : Color)
  | knight (c : Color)
  | pawn (c : Color) (is_first_turn : Bool)
deriving DecidableEq, Repr

/-- GamePiece.get_color. -/
def Piece.get_color : Piece → Color
  | .king c => c
  | .queen c => c
  | .rook c => c
  | .bishop c => c
  | .knight c => c
  | .pawn c _ => c

/-- Python `type(piece) is Pawn`. -/
def Piece.is_pawn : Piece → Bool
  | .pawn _ _ => true
  | _ => false

/-- Python `type(piece) is King`. -/
def Piece.is_king : Piece → Bool
  | .king _ => true
  | _ => false

/-- Python `type(piece) is Knight`. -/
def Piece.is_knight : Piece → Bool
  | .knight _ => true
  | _ => false

/-- The board: a list of 8 rows of 8 optional pieces
(`self._board`, a list of lists). -/
abbrev Board := List (List (Option Piece))

/-- Game result, Python strings "UNFINISHED" / "WHITE_WON" / "BLACK_WON"
held in `self._game_state`. -/
inductive GState where
  | unfinished
  | white_won
  | black_won
deriving DecidableEq, Repr

/-- The mutable state of a `GameBoard` object: `_board`, `_game_state`,
`_player_turn` and the `_king_status` dict (one Bool per colour). -/
structure GameState where
  board : Board
  game_state : GState
  player_turn : Color
  king_white : Bool
  king_black : Bool
deriving DecidableEq, Repr

/-- Python `board[r][c]` as an r-value.  `none` models an `IndexError`;
`some v` is the cell's content.  (Python also accepts negative indices
`≥ -8` by wrapping; no call site reachable from `make_move` produces a
negative index, so wrapping is not modelled and negatives are mapped to
the error case.) -/
def py_get (b : Board) (r c : Int) : Option (Option Piece) :=
  if 0 ≤ r ∧ 0 ≤ c then
    (b.get? r.toNat).bind (fun row => row.get? c.toNat)
  else none

/-- Python `board[r][c] = v`.  All reachable assignments are in range;
out-of-range assignments (which would raise in Python) leave the board
unchanged. -/
def py_set (b : Board) (r c : Int) (v : Option Piece) : Board :=
  if 0 ≤ r ∧ 0 ≤ c then
    b.set r.toNat (((b.get? r.toNat).getD []).set c.toNat v)
  else b

/-- Python `board[r][c]` where the caller guarantees the indices are in
range (the guarded reads inside `explosion` and the read in
`move_piece`): the cell's content, with `none` also covering the
unreachable out-of-range case. -/
def b_at (b : Board) (r c : Int) : Option Piece :=
  (py_get b r c).join

/-- GameBoard.initialize_board: the standard starting position. -/
def init_board : Board :=
  [ [some (.rook .black), some (.knight .black), some (.bishop .black),
     some (.queen .black), some (.king .black), some (.bishop .black),
     some (.knight .black), some (.rook .black)],
    [some (.pawn .black true), some (.pawn .black true), some (.pawn .black true),
     some (.pawn .black true), some (.pawn .black true), some (.pawn .black true),
     some (.pawn .black true), some (.pawn .black true)],
    [none, none, none, none, none, none, none, none],
    [none, none, none, none, none, none, none, none],
    [none, none, none, none, none, none, none, none],
    [none, none, none, none, none, none, none, none],
    [some (.pawn .white true), some (.pawn .white true), some (.pawn .white true),
     some (.pawn .white true), some (.pawn .white true), some (.pawn .white true),
     some (.pawn .white true), some (.pawn .white true)],
    [some (.rook .white), some (.knight .white), some (.bishop .white),
     some (.queen .white), some (.king .white), some (.bishop .white),
     some (.knight .white), some (.rook .white)] ]

/-- GameBoard.__init__: a fresh game. -/
def new_game : GameState :=
  { board := init_board
    game_state := .unfinished
    player_turn := .white
    king_white := true
    king_black := true }

/-- The direction strings returned by GameBoard.move_direction. -/
inductive Dir where
  | w_forward
  | b_forward
  | straight
  | w_diagonal
  | b_diagonal
  | diagonal
deriving DecidableEq, Repr

/-- GameBoard.move_direction.  `none` is the Python `False` return. -/
def move_direction (f t : Int × Int) (p : Piece) : Option Dir :=
  if f.1 = t.1 ∨ f.2 = t.2 then
    if f.1 - t.1 > 0 ∧ p.is_pawn then some .w_forward
    else if f.1 - t.1 < 0 ∧ p.is_pawn then some .b_forward
    else some .straight
  else if (f.1 - t.1).natAbs = (f.2 - t.2).natAbs then
    if f.1 - 1 = t.1 ∧ f.2 - 1 = t.2 ∧ p.is_pawn then some .w_diagonal
    else if f.1 - 1 = t.1 ∧ f.2 + 1 = t.2 ∧ p.is_pawn then some .w_diagonal
    else if f.1 + 1 = t.1 ∧ f.2 - 1 = t.2 ∧ p.is_pawn then some .b_diagonal
    else if f.1 + 1 = t.1 ∧ f.2 + 1 = t.2 ∧ p.is_pawn then some .b_diagonal
    else some .diagonal
  else none

/-- The results a piece-validity check can produce.  `no` covers both
Python's `False` and its implicit `None` return, which are
indistinguishable at every use site (both are falsy and neither equals
"PAWN_CAPTURE"). -/
inductive MRes where
  | ok
  | no
  | pawn_capture
deriving DecidableEq, Repr

/-- Pawn.is_valid_move.  The source mutates `self._is_first_turn`
in place; here the result is paired with the flag's value after the
call. -/
def pawn_is_valid_move (color : Color) (first : Bool) (dir : Dir) (dist : Int) :
    MRes × Bool :=
  if dir = .b_diagonal ∧ color = .black ∧ dist = 1 then (.pawn_capture, first)
  else if dir = .w_diagonal ∧ color = .white ∧ dist = 1 then (.pawn_capture, first)
  else if dir ≠ .b_forward ∧ dir ≠ .w_forward then (.no, first)
  else
    let black_valid := color = .black ∧ dir = .b_forward
    let white_valid := color = .white ∧ dir = .w_forward
    if black_valid ∨ white_valid then
      if dist = 2 ∧ first = true then (.ok, false)
      else if dist = 1 then (.ok, first)
      else (.no, first)
    else (.no, first)

/-- Knight.is_valid_move. -/
def knight_is_valid_move (f t : Int × Int) : Bool :=
  let row_distance := (f.1 - t.1).natAbs
  let col_distance := (f.2 - t.2).natAbs
  (row_distance == 2 && col_distance == 1) || (row_distance == 1 && col_distance == 2)

/-- GameBoard.piece_move.  Returns the result together with the piece
after the call (only a pawn can change, via its first-turn flag).
Knights never reach this function from `make_move`; the source would
fall through returning `None`, here `.no`. -/
def piece_move (dir : Dir) (dist : Int) (p : Piece) : MRes × Piece :=
  match p with
  | .queen _ => (.ok, p)
  | .king _ => if dist = 1 then (.ok, p) else (.no, p)
  | .rook _ => if dir = .straight then (.ok, p) else (.no, p)
  | .bishop _ => if dir = .diagonal then (.ok, p) else (.no, p)
  | .pawn c first =>
      let r := pawn_is_valid_move c first dir dist
      (r.1, .pawn c r.2)
  | .knight _ => (.no, p)

/-- Python `range(a, b)` over ints. -/
def int_range (a b : Int) : List Int :=
  (List.range (b - a).toNat).map (fun k => a + k)

/-- The body of the path-clearance loops: scan cells in order, return
`false` at the first occupied one, `true` if all are empty; a cell read
that would raise propagates as `none`. -/
def cells_all_empty (bd : Board) : List (Int × Int) → Option Bool
  | [] => some true
  | (r, c) :: rest =>
    match py_get bd r c with
    | none => none
    | some (some _) => some false
    | some none => cells_all_empty bd rest

/-- GameBoard.clear_path_straight. -/
def clear_path_straight (bd : Board) (f t : Int × Int) : Option Bool :=
  let from_row := f.1
  let from_col := f.2
  let to_row := t.1
  let to_col := t.2
  if from_row - to_row > 0 then
    cells_all_empty bd ((int_range (to_row + 1) from_row).map (fun r => (r, from_col)))
  else if from_row - to_row < 0 then
    cells_all_empty bd ((int_range (from_row + 1) to_row).map (fun r => (r, from_col)))
  else if from_col - to_col > 0 then
    cells_all_empty bd ((int_range (to_col + 1) from_col).map (fun c => (from_row, c)))
  else if from_col - to_col < 0 then
    cells_all_empty bd ((int_range (from_col + 1) to_col).map (fun c => (from_row, c)))
  else some false

/-- GameBoard.clear_path_diagonal. -/
def clear_path_diagonal (bd : Board) (f t : Int × Int) : Option Bool :=
  let row_direction := f.1 - t.1
  let col_direction := f.2 - t.2
  let distance : Int := (f.1 - t.1).natAbs
  if row_direction > 0 ∧ col_direction > 0 then
    cells_all_empty bd ((int_range 1 distance).map (fun s => (f.1 - s, f.2 - s)))
  else if row_direction > 0 ∧ col_direction < 0 then
    cells_all_empty bd ((int_range 1 distance).map (fun s => (f.1 - s, f.2 + s)))
  else if row_direction < 0 ∧ col_direction > 0 then
    cells_all_empty bd ((int_range 1 distance).map (fun s => (f.1 + s, f.2 - s)))
  else if row_direction < 0 ∧ col_direction < 0 then
    cells_all_empty bd ((int_range 1 distance).map (fun s => (f.1 + s, f.2 + s)))
  else some false

/-- GameBoard.clear_path_pawn.  When neither branch applies the source
returns `None` (falsy), modelled as `some false`; that case is
unreachable from `make_move`. -/
def clear_path_pawn (bd : Board) (f t : Int × Int) : Option Bool :=
  if f.1 - t.1 > 0 then
    cells_all_empty bd ((int_range t.1 f.1).map (fun r => (r, f.2)))
  else if f.1 - t.1 < 0 then
    cells_all_empty bd ((int_range (f.1 + 1) (t.1 + 1)).map (fun r => (r, f.2)))
  else some false

/-- GameBoard.pawn_capture.  A `None.get_color()` on the target (only
possible for arguments `make_move` never produces) would raise, hence
the `none`. -/
def pawn_capture (bd : Board) (f t : Int × Int) (color : Color) : Option Bool :=
  let row_direction := f.1 - t.1
  let col_direction := f.2 - t.2
  let capture : Option Bool :=
    if row_direction > 0 ∧ col_direction > 0 then
      (py_get bd (f.1 - 1) (f.2 - 1)).map Option.isSome
    else if row_direction > 0 ∧ col_direction < 0 then
      (py_get bd (f.1 - 1) (f.2 + 1)).map Option.isSome
    else if row_direction < 0 ∧ col_direction > 0 then
      (py_get bd (f.1 + 1) (f.2 - 1)).map Option.isSome
    else if row_direction < 0 ∧ col_direction < 0 then
      (py_get bd (f.1 + 1) (f.2 + 1)).map Option.isSome
    else some false
  match capture with
  | none => none
  | some false => some false
  | some true =>
    match py_get bd t.1 t.2 with
    | none => none
    | some none => none
    | some (some target) => some (!(color == target.get_color))

/-- The results of GameBoard.is_capture: `True`, `False`, `"KING"`,
`"WRONG_COLOR"`. -/
inductive CapRes where
  | yes
  | no
  | king_cap
  | wrong_color
deriving DecidableEq, Repr

/-- GameBoard.is_capture. -/
def is_capture (bd : Board) (f t : Int × Int) (p : Piece) : Option CapRes :=
  match py_get bd t.1 t.2 with
  | none => none
  | some none => some .no
  | some (some target) =>
    if p.get_color = target.get_color then some .wrong_color
    else if p.is_king then some .king_cap
    else some .yes

/-- GameBoard.valid_move.  The pawn's in-place flag mutation is written
back to the board square `f` the piece was read from (`make_move` always
passes the piece found at `f`, so this reproduces the aliasing). -/
def valid_move (s : GameState) (f t : Int × Int) (p : Piece) :
    Option (MRes × GameState) :=
  match move_direction f t p with
  | none => some (.no, s)
  | some direction =>
    let distance : Int :=
      if direction = .straight ∧ f.1 = t.1 then f.2 - t.2
      else ((f.1 - t.1).natAbs : Int)
    let pm := piece_move direction distance p
    let s1 : GameState := { s with board := py_set s.board f.1 f.2 (some pm.2) }
    let res : Option MRes :=
      match pm.1 with
      | .pawn_capture =>
        match pawn_capture s1.board f t p.get_color with
        | none => none
        | some is_cap => some (if is_cap then .pawn_capture else .no)
      | .ok =>
        let path : Option Bool :=
          match p with
          | .queen _ =>
            if direction = .straight then clear_path_straight s1.board f t
            else if direction = .diagonal then clear_path_diagonal s1.board f t
            else some false
          | .king _ =>
            if direction = .straight then clear_path_straight s1.board f t
            else if direction = .diagonal then clear_path_diagonal s1.board f t
            else some false
          | .rook _ => clear_path_straight s1.board f t
          | .bishop _ => clear_path_diagonal s1.board f t
          | .pawn _ _ => clear_path_pawn s1.board f t
          | .knight _ => some false
        match path with
        | none => none
        | some path_ok => some (if path_ok then .ok else .no)
      | .no => some .no
    res.map (fun v => (v, s1))

/-- GameBoard.update_turn. -/
def update_turn (s : GameState) : GameState :=
  if s.player_turn = .white then { s with player_turn := .black }
  else { s with player_turn := .white }

/-- The nine cells scanned by GameBoard.explosion, in loop order
(row offset outer, column offset inner), starting from the upper-left
corner of the 3x3 neighbourhood of `t`. -/
def explosion_cells (t : Int × Int) : List (Int × Int) :=
  let row := t.1 - 1
  let col := t.2 - 1
  [(row, col), (row, col + 1), (row, col + 2),
   (row + 1, col), (row + 1, col + 1), (row + 1, col + 2),
   (row + 2, col), (row + 2, col + 1), (row + 2, col + 2)]

/-- The scan loop of GameBoard.explosion: skip off-board cells, falsify
the king-status entry of any king found, and collect every occupied cell
into `explode_list` (`acc`). -/
def explosion_scan (bd : Board) : List (Int × Int) → Bool → Bool →
    List (Int × Int) → Bool × Bool × List (Int × Int)
  | [], kw, kb, acc => (kw, kb, acc)
  | (r, c) :: rest, kw, kb, acc =>
    if r < 0 ∨ r > 7 ∨ c < 0 ∨ c > 7 then explosion_scan bd rest kw kb acc
    else
      match b_at bd r c with
      | none => explosion_scan bd rest kw kb acc
      | some p =>
        let kw' := if p.is_king ∧ p.get_color = .white then false else kw
        let kb' := if p.is_king ∧ p.get_color ≠ .white then false else kb
        explosion_scan bd rest kw' kb' (acc ++ [(r, c)])

/-- The clearing loop of GameBoard.explosion: every queued square whose
current occupant is not a pawn becomes empty (the board is re-read on
each iteration, as in the source). -/
def explode_all (bd : Board) : List (Int × Int) → Board
  | [] => bd
  | (r, c) :: rest =>
    match b_at bd r c with
    | some p =>
      if p.is_pawn then explode_all bd rest
      else explode_all (py_set bd r c none) rest
    | none => explode_all (py_set bd r c none) rest

/-- Lines 510-512 of GameBoard.explosion: read the captured square and,
when the captured piece is a pawn, remove it (other pawns are spared by
the clearing loop, so the captured pawn is removed here explicitly). -/
def captured_board (bd : Board) (t : Int × Int) : Board :=
  match b_at bd t.1 t.2 with
  | some p => if p.is_pawn then py_set bd t.1 t.2 none else bd
  | none => bd

/-- GameBoard.explosion.  The king-status falsifications made during the
scan persist even when the move is then vetoed, exactly as in the
source, where `self._king_status` is written during the scan.  The read
of the captured square is in range whenever `update_board` is reached
from `make_move`. -/
def explosion (s : GameState) (t : Int × Int) : Bool × GameState :=
  let scan := explosion_scan s.board (explosion_cells t) s.king_white s.king_black []
  let s1 : GameState := { s with king_white := scan.1, king_black := scan.2.1 }
  if scan.1 = false ∧ scan.2.1 = false then (false, s1)
  else
    (true, { s1 with board := explode_all (captured_board s1.board t) scan.2.2 })

/-- GameBoard.update_win. -/
def update_win (s : GameState) : GameState :=
  if s.king_white = false then { s with game_state := .black_won }
  else if s.king_black = false then { s with game_state := .white_won }
  else s

/-- GameBoard.move_piece. -/
def move_piece (s : GameState) (f t : Int × Int) : GameState :=
  let moving := b_at s.board f.1 f.2
  { s with board := py_set (py_set s.board t.1 t.2 moving) f.1 f.2 none }

/-- GameBoard.update_board. -/
def update_board (s : GameState) (f t : Int × Int) (capture : Bool) :
    Bool × GameState :=
  let s1 := update_turn s
  if capture then
    let explode := explosion s1 t
    if explode.1 = false then (false, explode.2)
    else
      let s3 : GameState :=
        { explode.2 with board := py_set explode.2.board f.1 f.2 none }
      (true, update_win s3)
  else (true, move_piece s1 f t)

/-- GameBoard.notation_to_board_pos.  Python's `isalpha`, `isnumeric`,
`int(...)` and `lower` act here on single ASCII characters, where the
Lean counterparts agree with them; the development only ever evaluates
ASCII inputs. -/
def to_board_pos (cn : String) : Int × Int :=
  match cn.toList with
  | [c0, c1] =>
    if ¬ c0.isAlpha then (-1, -1)
    else if ¬ c1.isDigit then (-1, -1)
    else
      let n : Int := (c1.toNat : Int) - 48
      if n < 0 ∨ n > 8 then (-1, -1)
      else
        let row : Int := ((n - 8).natAbs : Int)
        let letters : List Char := ['a', 'b', 'c', 'd', 'e', 'f', 'g', 'h']
        let lowered := c0.toLower
        if lowered ∈ letters then (row, (letters.indexOf lowered : Int))
        else (-1, -1)
  | _ => (-1, -1)

/-- The body of GameBoard.make_move after notation conversion
(lines 141-169 of GameBoard.py), taking the already-converted board
positions.  `none` models an uncaught `IndexError`. -/
def make_move_from (s : GameState) (f t : Int × Int) : Option (Bool × GameState) :=
  if f = ((-1 : Int), (-1 : Int)) ∨ t = ((-1 : Int), (-1 : Int)) then some (false, s)
  else
    match py_get s.board f.1 f.2 with
    | none => none
    | some cell =>
      match cell with
      | none => some (false, s)
      | some piece =>
        if f = t then some (false, s)
        else if ¬ piece.get_color = s.player_turn then some (false, s)
        else
          let valids : Option (MRes × GameState) :=
            match piece with
            | .knight _ =>
              some ((if knight_is_valid_move f t then .ok else .no), s)
            | _ => valid_move s f t piece
          match valids with
          | none => none
          | some vs =>
            match vs.1 with
            | .pawn_capture => some (update_board vs.2 f t true)
            | .no => some (false, vs.2)
            | .ok =>
              match is_capture vs.2.board f t piece with
              | none => none
              | some capture =>
                match capture with
                | .king_cap => some (false, vs.2)
                | .wrong_color => some (false, vs.2)
                | .yes => some (update_board vs.2 f t true)
                | .no => some (update_board vs.2 f t false)

/-- GameBoard.make_move. -/
def make_move (s : GameState) (sq_from sq_to : String) : Option (Bool × GameState) :=
  if ¬ s.game_state = .unfinished then some (false, s)
  else make_move_from s (to_board_pos sq_from) (to_board_pos sq_to)

/-! ### Concrete test positions -/

/-- An empty board row. -/
def empty_row : List (Option Piece) :=
  [none, none, none, none, none, none, none, none]

/-- White pawn on e2 (6,4) with its first-turn flag still true, a black
pawn blocking e3 (5,4), kings on e8 and e1. -/
def c1_state : GameState :=
  { board :=
      [ [none, none, none, none, some (.king .black), none, none, none],
        empty_row, empty_row, empty_row, empty_row,
        [none, none, none, none, some (.pawn .black true), none, none, none],
        [none, none, none, none, some (.pawn .white true), none, none, none],
        [none, none, none, none, some (.king .white), none, none, none] ]
    game_state := .unfinished
    player_turn := .white
    king_white := true
    king_black := true }

/-- White rook on e1 (7,4) attacking the black pawn on e5 (3,4), with
both kings inside the 3x3 explosion neighbourhood of e5 (white on
(2,3), black on (2,5)). -/
def c2_state : GameState :=
  { board :=
      [ empty_row, empty_row,
        [none, none, none, some (.king .white), none, some (.king .black), none, none],
        [none, none, none, none, some (.pawn .black true), none, none, none],
        empty_row, empty_row, empty_row,
        [none, none, none, none, some (.rook .white), none, none, none] ]
    game_state := .unfinished
    player_turn := .white
    king_white := true
    king_black := true }

/-- White rook on (4,0) attacking the black pawn on (4,4); both kings
and a bystander white pawn on (6,6) far from the blast. -/
def c4_state : GameState :=
  { board :=
      [ [none, none, none, none, none, none, none, some (.king .black)],
        empty_row, empty_row, empty_row,
        [some (.rook .white), none, none, none, some (.pawn .black true), none, none, none],
        empty_row,
        [none, none, none, none, none, none, some (.pawn .white true), none],
        [none, none, none, none, none, none, none, some (.king .white)] ]
    game_state := .unfinished
    player_turn := .white
    king_white := true
    king_black := true }

/-- White king alone on (4,4) (black king far away on (0,0)). -/
def c5_state : GameState :=
  { board :=
      [ [some (.king .black), none, none, none, none, none, none, none],
        empty_row, empty_row, empty_row,
        [none, none, none, none, some (.king .white), none, none, none],
        empty_row, empty_row, empty_row ]
    game_state := .unfinished
    player_turn := .white
    king_white := true
    king_black := true }

/-- The state after White's accepted one-square advance e2-e3 from the
initial position. -/
def c3_after_1 : GameState :=
  ((make_move new_game "e2" "e3").getD (false, new_game)).2

/-- The state after the further accepted Black reply a7-a6. -/
def c3_after_2 : GameState :=
  ((make_move c3_after_1 "a7" "a6").getD (false, c3_after_1)).2

/-- The state c1_state would be left in by the rejected move: identical
except that the e2 pawn's first-turn flag has been cleared. -/
def c1_after : GameState :=
  { c1_state with
    board := py_set c1_state.board 6 4 (some (.pawn .white false)) }

/-- A finished game (White has already won). -/
def c8_state : GameState := { new_game with game_state := .white_won }

/-- The corrupted state a mutual-destruction veto leaves behind: both
king-status flags false while the game is still unfinished (here grafted
onto the initial position). -/
def c9_state : GameState :=
  { new_game with king_white := false, king_black := false }

/-- The state after playing e2-e4 from `c9_state`. -/
def c9_after : GameState :=
  ((make_move c9_state "e2" "e4").getD (false, c9_state)).2

/-- The state produced by applying the non-capturing move (6,4)-(4,4)
to the initial position through `update_board`. -/
def c10_after : GameState :=
  (update_board new_game (6, 4) (4, 4) false).2

/-- The state produced by applying the capture (4,0)-(4,4) to
`c4_state` through `update_board`. -/
def c4_upd : GameState :=
  (update_board c4_state (4, 0) (4, 4) true).2

/-! ### Lemmas about board cell access -/

theorem py_get_py_set_self {b : Board} {r c : Int} {w : Option Piece}
    (h : py_get b r c = some w) (v : Option Piece) :
    py_get (py_set b r c v) r c = some v := by
  unfold py_get py_set at *
  simp only [List.get?_eq_getElem?] at h ⊢
  by_cases hrc : 0 ≤ r ∧ 0 ≤ c
  · rw [if_pos hrc] at h ⊢
    rw [if_pos hrc]
    cases hrow : b[r.toNat]? with
    | none => rw [hrow] at h; simp at h
    | some row =>
      rw [hrow] at h
      simp only [Option.some_bind] at h
      have hrl : r.toNat < b.length := (List.getElem?_eq_some_iff.mp hrow).1
      have hcl : c.toNat < row.length := (List.getElem?_eq_some_iff.mp h).1
      simp only [Option.getD_some]
      rw [List.getElem?_set_self (by simpa using hrl)]
      simp only [Option.some_bind]
      rw [List.getElem?_set_self (by simpa using hcl)]
  · rw [if_neg hrc] at h
    exact Option.noConfusion h

theorem py_get_py_set_self_none {b : Board} {r c : Int}
    (h : py_get b r c = none) (v : Option Piece) :
    py_get (py_set b r c v) r c = none := by
  unfold py_get py_set at *
  simp only [List.get?_eq_getElem?] at h ⊢
  by_cases hrc : 0 ≤ r ∧ 0 ≤ c
  · rw [if_pos hrc] at h ⊢
    rw [if_pos hrc]
    cases hrow : b[r.toNat]? with
    | none =>
      have hrl : b.length ≤ r.toNat := List.getElem?_eq_none_iff.mp hrow
      rw [List.set_eq_of_length_le hrl, hrow]
      rfl
    | some row =>
      rw [hrow] at h
      simp only [Option.some_bind] at h
      have hcl : row.length ≤ c.toNat := List.getElem?_eq_none_iff.mp h
      have hrl : r.toNat < b.length := (List.getElem?_eq_some_iff.mp hrow).1
      simp only [Option.getD_some, List.set_eq_of_length_le hcl]
      rw [List.getElem?_set_self (by simpa using hrl)]
      simp only [Option.some_bind]
      exact h
  · rw [if_neg hrc]

theorem py_get_py_set_other {b : Board} {r c r2 c2 : Int}
    (h : ¬(r2 = r ∧ c2 = c)) (v : Option Piece) :
    py_get (py_set b r c v) r2 c2 = py_get b r2 c2 := by
  unfold py_get py_set
  simp only [List.get?_eq_getElem?]
  by_cases hrc : 0 ≤ r ∧ 0 ≤ c
  · by_cases hrc2 : 0 ≤ r2 ∧ 0 ≤ c2
    · rw [if_pos hrc, if_pos hrc2, if_pos hrc2]
      by_cases hr : r2 = r
      · subst hr
        have hc : c2 ≠ c := fun hc => h ⟨rfl, hc⟩
        have hcn : c.toNat ≠ c2.toNat := by omega
        rw [List.getElem?_set]
        rw [if_pos rfl]
        by_cases hrl : r2.toNat < b.length
        · rw [if_pos hrl]
          cases hrow : b[r2.toNat]? with
          | none =>
            have := List.getElem?_eq_none_iff.mp hrow
            omega
          | some row =>
            simp only [Option.getD_some, Option.some_bind]
            rw [List.getElem?_set_ne hcn]
        · rw [if_neg hrl]
          have hnone : b[r2.toNat]? = none :=
            List.getElem?_eq_none_iff.mpr (by omega)
          rw [hnone]
      · have hrn : r.toNat ≠ r2.toNat := by omega
        rw [List.getElem?_set_ne hrn]
    · rw [if_pos hrc, if_neg hrc2, if_neg hrc2]
  · rw [if_neg hrc]

theorem py_get_py_set_isSome {b : Board} {r c r2 c2 : Int} (v : Option Piece) :
    (py_get (py_set b r c v) r2 c2).isSome = (py_get b r2 c2).isSome := by
  by_cases h : r2 = r ∧ c2 = c
  · obtain ⟨rfl, rfl⟩ := h
    cases hw : py_get b r2 c2 with
    | none => rw [py_get_py_set_self_none hw]
    | some w => rw [py_get_py_set_self hw]; rfl
  · rw [py_get_py_set_other h]

theorem b_at_eq_some {b : Board} {r c : Int} {p : Piece}
    (h : py_get b r c = some (some p)) : b_at b r c = some p := by
  unfold b_at
  rw [h]
  rfl

/-! ### Lemmas about the explosion loops -/

theorem explode_all_pawn_preserved (l : List (Int × Int)) :
    ∀ (bd : Board) (r c : Int) (cl : Color) (fl : Bool),
      py_get bd r c = some (some (Piece.pawn cl fl)) →
      py_get (explode_all bd l) r c = some (some (Piece.pawn cl fl)) := by
  induction l with
  | nil => intro bd r c cl fl h; simpa only [explode_all] using h
  | cons hd rest ih =>
    intro bd r c cl fl h
    obtain ⟨a, e⟩ := hd
    by_cases heq : a = r ∧ e = c
    · obtain ⟨rfl, rfl⟩ := heq
      have hb : b_at bd a e = some (Piece.pawn cl fl) := b_at_eq_some h
      simp only [explode_all, hb, Piece.is_pawn, if_pos]
      exact ih bd a e cl fl h
    · cases hb : b_at bd a e with
      | none =>
        simp only [explode_all, hb]
        exact ih _ r c cl fl (by rw [py_get_py_set_other (fun hx => heq ⟨hx.1.symm, hx.2.symm⟩)]; exact h)
      | some p =>
        simp only [explode_all, hb]
        by_cases hp : p.is_pawn
        · rw [if_pos hp]
          exact ih bd r c cl fl h
        · rw [if_neg hp]
          exact ih _ r c cl fl (by rw [py_get_py_set_other (fun hx => heq ⟨hx.1.symm, hx.2.symm⟩)]; exact h)

theorem explode_all_none_preserved (l : List (Int × Int)) :
    ∀ (bd : Board) (r c : Int),
      py_get bd r c = some none →
      py_get (explode_all bd l) r c = some none := by
  induction l with
  | nil => intro bd r c h; simpa only [explode_all] using h
  | cons hd rest ih =>
    intro bd r c h
    obtain ⟨a, e⟩ := hd
    by_cases heq : a = r ∧ e = c
    · obtain ⟨rfl, rfl⟩ := heq
      have hb : b_at bd a e = none := by unfold b_at; rw [h]; rfl
      simp only [explode_all, hb]
      exact ih _ a e (py_get_py_set_self h none)
    · cases hb : b_at bd a e with
      | none =>
        simp only [explode_all, hb]
        exact ih _ r c (by rw [py_get_py_set_other (fun hx => heq ⟨hx.1.symm, hx.2.symm⟩)]; exact h)
      | some p =>
        simp only [explode_all, hb]
        by_cases hp : p.is_pawn
        · rw [if_pos hp]
          exact ih bd r c h
        · rw [if_neg hp]
          exact ih _ r c (by rw [py_get_py_set_other (fun hx => heq ⟨hx.1.symm, hx.2.symm⟩)]; exact h)

theorem explode_all_clears_mem (l : List (Int × Int)) :
    ∀ (bd : Board) (r c : Int) (p : Piece),
      (r, c) ∈ l →
      py_get bd r c = some (some p) →
      p.is_pawn = false →
      py_get (explode_all bd l) r c = some none := by
  induction l with
  | nil => intro bd r c p hm; exact absurd hm (List.not_mem_nil _)
  | cons hd rest ih =>
    intro bd r c p hm h hp
    obtain ⟨a, e⟩ := hd
    by_cases heq : a = r ∧ e = c
    · obtain ⟨rfl, rfl⟩ := heq
      have hb : b_at bd a e = some p := b_at_eq_some h
      simp only [explode_all, hb]
      rw [if_neg (by rw [hp]; exact Bool.false_ne_true)]
      exact explode_all_none_preserved rest _ a e (py_get_py_set_self h none)
    · have hmrest : (r, c) ∈ rest := by
        rcases List.mem_cons.mp hm with h1 | h1
        · exact absurd ⟨(Prod.mk.injEq _ _ _ _ ▸ h1.symm).1,
            (Prod.mk.injEq _ _ _ _ ▸ h1.symm).2⟩ heq
        · exact h1
      cases hb : b_at bd a e with
      | none =>
        simp only [explode_all, hb]
        exact ih _ r c p hmrest (by rw [py_get_py_set_other (fun hx => heq ⟨hx.1.symm, hx.2.symm⟩)]; exact h) hp
      | some q =>
        simp only [explode_all, hb]
        by_cases hq : q.is_pawn
        · rw [if_pos hq]
          exact ih bd r c p hmrest h hp
        · rw [if_neg hq]
          exact ih _ r c p hmrest (by rw [py_get_py_set_other (fun hx => heq ⟨hx.1.symm, hx.2.symm⟩)]; exact h) hp

theorem explode_all_isSome (l : List (Int × Int)) :
    ∀ (bd : Board) (r c : Int),
      (py_get (explode_all bd l) r c).isSome = (py_get bd r c).isSome := by
  induction l with
  | nil => intro bd r c; rw [explode_all]
  | cons hd rest ih =>
    intro bd r c
    obtain ⟨a, e⟩ := hd
    cases hb : b_at bd a e with
    | none =>
      simp only [explode_all, hb]
      rw [ih, py_get_py_set_isSome]
    | some p =>
      simp only [explode_all, hb]
      by_cases hp : p.is_pawn
      · rw [if_pos hp, ih]
      · rw [if_neg hp, ih, py_get_py_set_isSome]

theorem explosion_scan_kw_false (bd : Board) (l : List (Int × Int)) :
    ∀ (kw kb : Bool) (acc : List (Int × Int)), kw = false →
      (explosion_scan bd l kw kb acc).1 = false := by
  induction l with
  | nil => intro kw kb acc h; simpa only [explosion_scan] using h
  | cons hd rest ih =>
    intro kw kb acc h
    obtain ⟨a, e⟩ := hd
    simp only [explosion_scan]
    split
    · exact ih kw kb acc h
    · cases hb : b_at bd a e with
      | none => simp only [hb]; exact ih kw kb acc h
      | some p =>
        simp only [hb]
        apply ih
        subst h
        split <;> rfl

theorem explosion_scan_kb_false (bd : Board) (l : List (Int × Int)) :
    ∀ (kw kb : Bool) (acc : List (Int × Int)), kb = false →
      (explosion_scan bd l kw kb acc).2.1 = false := by
  induction l with
  | nil => intro kw kb acc h; simpa only [explosion_scan] using h
  | cons hd rest ih =>
    intro kw kb acc h
    obtain ⟨a, e⟩ := hd
    simp only [explosion_scan]
    split
    · exact ih kw kb acc h
    · cases hb : b_at bd a e with
      | none => simp only [hb]; exact ih kw kb acc h
      | some p =>
        simp only [hb]
        apply ih
        subst h
        split <;> rfl

theorem explosion_scan_acc_mono (bd : Board) (l : List (Int × Int)) :
    ∀ (kw kb : Bool) (acc : List (Int × Int)) (x : Int × Int), x ∈ acc →
      x ∈ (explosion_scan bd l kw kb acc).2.2 := by
  induction l with
  | nil => intro kw kb acc x h; simpa only [explosion_scan] using h
  | cons hd rest ih =>
    intro kw kb acc x h
    obtain ⟨a, e⟩ := hd
    simp only [explosion_scan]
    split
    · exact ih kw kb acc x h
    · cases hb : b_at bd a e with
      | none => simp only [hb]; exact ih kw kb acc x h
      | some p =>
        simp only [hb]
        exact ih _ _ _ x (List.mem_append_left _ h)

theorem explosion_scan_mem (bd : Board) (l : List (Int × Int)) :
    ∀ (kw kb : Bool) (acc : List (Int × Int)) (r c : Int) (p : Piece),
      (r, c) ∈ l →
      ¬(r < 0 ∨ r > 7 ∨ c < 0 ∨ c > 7) →
      b_at bd r c = some p →
      (r, c) ∈ (explosion_scan bd l kw kb acc).2.2 := by
  induction l with
  | nil => intro kw kb acc r c p hm; exact absurd hm (List.not_mem_nil _)
  | cons hd rest ih =>
    intro kw kb acc r c p hm hg hb
    obtain ⟨a, e⟩ := hd
    rcases List.mem_cons.mp hm with h1 | h1
    · obtain ⟨rfl, rfl⟩ : r = a ∧ c = e :=
        ⟨(Prod.mk.injEq _ _ _ _ ▸ h1).1, (Prod.mk.injEq _ _ _ _ ▸ h1).2⟩
      simp only [explosion_scan]
      rw [if_neg hg, hb]
      exact explosion_scan_acc_mono bd rest _ _ _ (r, c)
        (List.mem_append_right _ (List.mem_singleton.mpr rfl))
    · simp only [explosion_scan]
      split
      · exact ih kw kb acc r c p h1 hg hb
      · cases hbe : b_at bd a e with
        | none => simp only [hbe]; exact ih kw kb acc r c p h1 hg hb
        | some q =>
          simp only [hbe]
          exact ih _ _ _ r c p h1 hg hb

/-! ### Claim theorems -/

/-- Claim C1: the claim says every rejected `make_move` call leaves the
whole game state (board, turn, result, king flags, and every piece's
internal state) unchanged.  The code violates this: the blocked
two-square pawn advance (6,4)-(4,4) from `c1_state` is rejected
(returns `false`), yet the e2 pawn's first-turn flag has been cleared,
so the post-state differs from the pre-state. -/
theorem c1_rejected_move_mutates_state :
    make_move_from c1_state (6, 4) (4, 4) = some (false, c1_after) ∧
    c1_after ≠ c1_state := by decide

/-- Claim C2: the claim says a capture whose explosion would destroy
both kings is rejected with the board unmutated and the king-alive
flags holding their pre-move values.  The code rejects the move and
leaves the board unmutated, but flips the player turn and leaves both
king-alive flags false: the rook capture (7,4)-(3,4) from `c2_state`
(both kings alive before the call) returns exactly the pre-state with
turn flipped and both king flags cleared. -/
theorem c2_mutual_destruction_veto_corrupts :
    make_move_from c2_state (7, 4) (3, 4) =
      some (false, { c2_state with
                     player_turn := Color.black,
                     king_white := false,
                     king_black := false }) := by decide

/-- Claim C3: the claim says a pawn's first-move flag is cleared on its
first successfully applied forward move of any distance, after which a
two-square advance is never again legal.  In the code the flag is only
touched in the distance-2 branch of Pawn.is_valid_move: after the
accepted one-square advance e2-e3 the flag is still true, and the
two-square advance e3-e5 (from a non-starting square, on the pawn's
second move) is then accepted. -/
theorem c3_first_turn_flag_not_cleared :
    (make_move new_game "e2" "e3").map Prod.fst = some true ∧
    b_at c3_after_1.board 5 4 = some (Piece.pawn Color.white true) ∧
    (make_move c3_after_2 "e3" "e5").map Prod.fst = some true := by decide

/-- Claim C4, counterexample: the claim says explosion removes no pawn,
including a pawn standing on the capture's destination square.  In the
code the captured pawn standing on the destination square is removed
(GameBoard.py line 511-512): the accepted rook capture (4,0)-(4,4) of
the black pawn on (4,4) leaves (4,4) empty. -/
theorem c4_destination_pawn_removed :
    b_at c4_state.board 4 4 = some (Piece.pawn Color.black true) ∧
    make_move_from c4_state (4, 0) (4, 4) =
      some (true, { c4_state with
                    player_turn := Color.black,
                    board := py_set (py_set c4_state.board 4 4 none) 4 0 none }) := by
  decide

/-- Claim C5: the claim says every one-square king move in any straight
or diagonal direction passes the piece-legality check.  The code
computes the lateral distance as the signed difference
`sq_from[1] - sq_to[1]` (GameBoard.py line 189), so a king's one-square
move to the right has distance -1 and fails `piece_move`'s
`distance == 1` test: (4,4)-(4,5) is rejected with the state unchanged,
while the mirror-image (4,4)-(4,3) and the one-square moves up and
diagonally are accepted. -/
theorem c5_king_rightward_rejected :
    make_move_from c5_state (4, 4) (4, 5) = some (false, c5_state) ∧
    (make_move_from c5_state (4, 4) (4, 3)).map Prod.fst = some true ∧
    (make_move_from c5_state (4, 4) (3, 4)).map Prod.fst = some true ∧
    (make_move_from c5_state (4, 4) (3, 5)).map Prod.fst = some true := by decide

/-- Claim C6: the claim says every pair of input strings is rejected
with a return value and never an exception.  The input "a0" passes all
of notation_to_board_pos's checks (the row-digit test accepts 0),
converts to board row `abs(0-8) = 8`, and `make_move` then evaluates
`self._board[8][0]`, raising an IndexError (modelled by `none`). -/
theorem c6_malformed_input_crashes :
    to_board_pos "a0" = (8, 0) ∧
    make_move new_game "a0" "a1" = none := by decide

/-- Claim C7: knight legality depends only on the absolute row and
column deltas being {2,1} or {1,2}.  `knight_is_valid_move` (the check
`make_move` applies to knights) takes no board argument, so it is
independent of intervening occupancy by construction; this theorem
characterises it by the deltas alone. -/
theorem c7_knight_delta_characterization (f t : Int × Int) :
    knight_is_valid_move f t = true ↔
      (((f.1 - t.1).natAbs = 2 ∧ (f.2 - t.2).natAbs = 1) ∨
       ((f.1 - t.1).natAbs = 1 ∧ (f.2 - t.2).natAbs = 2)) := by
  unfold knight_is_valid_move
  simp [Bool.or_eq_true, Bool.and_eq_true, beq_iff_eq]

/-- Claim C8: once the result is decided (`game_state` is not
UNFINISHED), every `make_move` call, for any pair of input strings, is
rejected immediately and the whole game state is returned unchanged. -/
theorem c8_game_over_rejects (s : GameState)
    (h : ¬ s.game_state = GState.unfinished) (a b : String) :
    make_move s a b = some (false, s) := by
  unfold make_move
  rw [if_pos h]

/-- Witness for C8 at a concrete finished state and concrete inputs. -/
theorem c8_game_over_rejects_witness :
    make_move c8_state "e2" "e4" = some (false, c8_state) :=
  c8_game_over_rejects c8_state (by decide) "e2" "e4"

/-! ### Field-preservation lemmas -/

theorem update_turn_fields (s : GameState) :
    (update_turn s).board = s.board ∧
    (update_turn s).game_state = s.game_state ∧
    (update_turn s).king_white = s.king_white ∧
    (update_turn s).king_black = s.king_black := by
  unfold update_turn
  split <;> exact ⟨rfl, rfl, rfl, rfl⟩

theorem update_turn_player (s : GameState) :
    (update_turn s).player_turn =
      (if s.player_turn = Color.white then Color.black else Color.white) := by
  unfold update_turn
  split <;> rfl

theorem explosion_veto_of_dead (s : GameState) (t : Int × Int)
    (hw : s.king_white = false) (hb : s.king_black = false) :
    explosion s t = (false, { s with king_white := false, king_black := false }) := by
  have h1 := explosion_scan_kw_false s.board (explosion_cells t)
    s.king_white s.king_black [] hw
  have h2 := explosion_scan_kb_false s.board (explosion_cells t)
    s.king_white s.king_black [] hb
  unfold explosion
  rw [if_pos ⟨h1, h2⟩, h1, h2]

theorem update_board_capture_dead (s : GameState) (f t : Int × Int)
    (hw : s.king_white = false) (hb : s.king_black = false) :
    update_board s f t true =
      (false, { update_turn s with king_white := false, king_black := false }) := by
  have hw2 : (update_turn s).king_white = false := by
    rw [(update_turn_fields s).2.2.1]; exact hw
  have hb2 : (update_turn s).king_black = false := by
    rw [(update_turn_fields s).2.2.2]; exact hb
  unfold update_board
  rw [if_pos rfl, explosion_veto_of_dead (update_turn s) t hw2 hb2]
  rfl

theorem valid_move_fields {s : GameState} {f t : Int × Int} {p : Piece}
    {v : MRes} {s1 : GameState}
    (h : valid_move s f t p = some (v, s1)) :
    s1.game_state = s.game_state ∧ s1.player_turn = s.player_turn ∧
    s1.king_white = s.king_white ∧ s1.king_black = s.king_black := by
  unfold valid_move at h
  split at h
  · simp only [Option.some.injEq, Prod.mk.injEq] at h
    obtain ⟨-, rfl⟩ := h
    exact ⟨rfl, rfl, rfl, rfl⟩
  · simp only [Option.map_eq_some'] at h
    obtain ⟨a, -, ha⟩ := h
    simp only [Prod.mk.injEq] at ha
    obtain ⟨-, rfl⟩ := ha
    exact ⟨rfl, rfl, rfl, rfl⟩

theorem update_board_fields_dead (s : GameState) (f t : Int × Int) (cap : Bool)
    (hw : s.king_white = false) (hb : s.king_black = false) :
    (update_board s f t cap).2.game_state = s.game_state ∧
    (update_board s f t cap).2.king_white = false ∧
    (update_board s f t cap).2.king_black = false := by
  cases cap with
  | false =>
    exact ⟨(update_turn_fields s).2.1,
      ((update_turn_fields s).2.2.1).trans hw,
      ((update_turn_fields s).2.2.2).trans hb⟩
  | true =>
    rw [update_board_capture_dead s f t hw hb]
    exact ⟨(update_turn_fields s).2.1, rfl, rfl⟩

theorem make_move_from_fields {s : GameState} {f t : Int × Int}
    {res : Bool} {s2 : GameState}
    (hw : s.king_white = false) (hb : s.king_black = false)
    (h : make_move_from s f t = some (res, s2)) :
    s2.game_state = s.game_state ∧ s2.king_white = false ∧
    s2.king_black = false := by
  unfold make_move_from at h
  split at h
  · simp only [Option.some.injEq, Prod.mk.injEq] at h
    obtain ⟨-, rfl⟩ := h
    exact ⟨rfl, hw, hb⟩
  · split at h
    · exact Option.noConfusion h
    · split at h
      · simp only [Option.some.injEq, Prod.mk.injEq] at h
        obtain ⟨-, rfl⟩ := h
        exact ⟨rfl, hw, hb⟩
      · split at h
        · simp only [Option.some.injEq, Prod.mk.injEq] at h
          obtain ⟨-, rfl⟩ := h
          exact ⟨rfl, hw, hb⟩
        · split at h
          · simp only [Option.some.injEq, Prod.mk.injEq] at h
            obtain ⟨-, rfl⟩ := h
            exact ⟨rfl, hw, hb⟩
          · split at h
            -- the knight alternative of the piece match
            · (try dsimp only at h)
              split at h
              · -- "PAWN_CAPTURE" branch (vacuous for a knight but uniform)
                simp only [Option.some.injEq] at h
                have h2 : s2 = (update_board s f t true).2 := by rw [h]
                obtain ⟨hg, hww, hbb⟩ :=
                  update_board_fields_dead s f t true hw hb
                exact ⟨by rw [h2, hg], by rw [h2]; exact hww,
                  by rw [h2]; exact hbb⟩
              · -- invalid knight geometry: state returned unchanged
                simp only [Option.some.injEq, Prod.mk.injEq] at h
                obtain ⟨-, rfl⟩ := h
                exact ⟨rfl, hw, hb⟩
              · -- valid knight move: is_capture dispatch on `s`
                split at h
                · exact Option.noConfusion h
                · split at h
                  · simp only [Option.some.injEq, Prod.mk.injEq] at h
                    obtain ⟨-, rfl⟩ := h
                    exact ⟨rfl, hw, hb⟩
                  · simp only [Option.some.injEq, Prod.mk.injEq] at h
                    obtain ⟨-, rfl⟩ := h
                    exact ⟨rfl, hw, hb⟩
                  · simp only [Option.some.injEq] at h
                    have h2 : s2 = (update_board s f t true).2 := by rw [h]
                    obtain ⟨hg, hww, hbb⟩ :=
                      update_board_fields_dead s f t true hw hb
                    exact ⟨by rw [h2, hg], by rw [h2]; exact hww,
                      by rw [h2]; exact hbb⟩
                  · simp only [Option.some.injEq] at h
                    have h2 : s2 = (update_board s f t false).2 := by rw [h]
                    obtain ⟨hg, hww, hbb⟩ :=
                      update_board_fields_dead s f t false hw hb
                    exact ⟨by rw [h2, hg], by rw [h2]; exact hww,
                      by rw [h2]; exact hbb⟩
            -- every other piece goes through valid_move
            · (try dsimp only at h)
              split at h
              · exact Option.noConfusion h
              · rename_i vs hvs
                obtain ⟨mv, s1⟩ := vs
                obtain ⟨hgs, -, hkw, hkb⟩ := valid_move_fields hvs
                have hw1 : s1.king_white = false := hkw.trans hw
                have hb1 : s1.king_black = false := hkb.trans hb
                dsimp only at h
                split at h
                · -- pawn capture
                  simp only [Option.some.injEq] at h
                  have h2 : s2 = (update_board s1 f t true).2 := by rw [h]
                  obtain ⟨hg, hww, hbb⟩ :=
                    update_board_fields_dead s1 f t true hw1 hb1
                  exact ⟨by rw [h2, hg, hgs], by rw [h2]; exact hww,
                    by rw [h2]; exact hbb⟩
                · -- invalid move: mutated state returned as is
                  simp only [Option.some.injEq, Prod.mk.injEq] at h
                  obtain ⟨-, rfl⟩ := h
                  exact ⟨hgs, hw1, hb1⟩
                · -- valid move: is_capture dispatch
                  split at h
                  · exact Option.noConfusion h
                  · split at h
                    · simp only [Option.some.injEq, Prod.mk.injEq] at h
                      obtain ⟨-, rfl⟩ := h
                      exact ⟨hgs, hw1, hb1⟩
                    · simp only [Option.some.injEq, Prod.mk.injEq] at h
                      obtain ⟨-, rfl⟩ := h
                      exact ⟨hgs, hw1, hb1⟩
                    · simp only [Option.some.injEq] at h
                      have h2 : s2 = (update_board s1 f t true).2 := by rw [h]
                      obtain ⟨hg, hww, hbb⟩ :=
                        update_board_fields_dead s1 f t true hw1 hb1
                      exact ⟨by rw [h2, hg, hgs], by rw [h2]; exact hww,
                        by rw [h2]; exact hbb⟩
                    · simp only [Option.some.injEq] at h
                      have h2 : s2 = (update_board s1 f t false).2 := by rw [h]
                      obtain ⟨hg, hww, hbb⟩ :=
                        update_board_fields_dead s1 f t false hw1 hb1
                      exact ⟨by rw [h2, hg, hgs], by rw [h2]; exact hww,
                        by rw [h2]; exact hbb⟩

/-- Claim C9: from any state in which both king-alive flags are false
while the result is still UNFINISHED (the state a mutual-destruction
veto leaves behind), every capture application is rejected (the first
conjunct: `update_board` with `capture = true`, the only way `make_move`
applies a capture, always returns `false` there), and every `make_move`
call — accepted or not — leaves the result UNFINISHED and both flags
false, so the state re-satisfies the hypotheses and the game can never
be won. -/
theorem c9_dead_kings_permanent (s : GameState)
    (hw : s.king_white = false) (hb : s.king_black = false)
    (hg : s.game_state = GState.unfinished) :
    (∀ f t : Int × Int, (update_board s f t true).1 = false) ∧
    (∀ (a b : String) (res : Bool) (s2 : GameState),
      make_move s a b = some (res, s2) →
      s2.game_state = GState.unfinished ∧ s2.king_white = false ∧
      s2.king_black = false) := by
  constructor
  · intro f t
    rw [update_board_capture_dead s f t hw hb]
  · intro a b res s2 h
    unfold make_move at h
    rw [if_neg (fun hc => hc hg)] at h
    obtain ⟨h1, h2, h3⟩ := make_move_from_fields hw hb h
    exact ⟨h1.trans hg, h2, h3⟩

/-- Witness for C9: the dead-flags initial position, a concrete capture
application (the square pair is arbitrary), and the concrete accepted
pawn move e2-e4. -/
theorem c9_dead_kings_permanent_witness :
    (update_board c9_state (4, 4) (3, 4) true).1 = false ∧
    (c9_after.game_state = GState.unfinished ∧ c9_after.king_white = false ∧
      c9_after.king_black = false) :=
  ⟨(c9_dead_kings_permanent c9_state rfl rfl rfl).1 (4, 4) (3, 4),
   (c9_dead_kings_permanent c9_state rfl rfl rfl).2 "e2" "e4" true c9_after
     (by decide)⟩

/-- Claim C10: an accepted non-capturing move (the `capture = false`
branch of `update_board`, which is exactly how `make_move` applies every
accepted non-capturing move) changes only the origin square (now empty)
and the destination square (now holding the moved piece); every other
square, both king flags and the result are unchanged, and the turn
flips.  The hypotheses mirror what `make_move` has established before
the call: the origin holds the moving piece, the destination is an
empty in-range square, and origin and destination differ. -/
theorem c10_noncapture_frame (s : GameState) (f t : Int × Int) (p : Piece)
    (s2 : GameState)
    (hp : py_get s.board f.1 f.2 = some (some p))
    (hq : py_get s.board t.1 t.2 = some none)
    (hft : ¬(f.1 = t.1 ∧ f.2 = t.2))
    (h : update_board s f t false = (true, s2)) :
    s2.game_state = s.game_state ∧
    s2.king_white = s.king_white ∧
    s2.king_black = s.king_black ∧
    s2.player_turn = (if s.player_turn = Color.white then Color.black
                      else Color.white) ∧
    py_get s2.board f.1 f.2 = some none ∧
    py_get s2.board t.1 t.2 = some (some p) ∧
    (∀ r c : Int, ¬(r = f.1 ∧ c = f.2) → ¬(r = t.1 ∧ c = t.2) →
      py_get s2.board r c = py_get s.board r c) := by
  have hrw : update_board s f t false = (true, move_piece (update_turn s) f t) := rfl
  rw [hrw] at h
  have hs2 : s2 = move_piece (update_turn s) f t := (congrArg Prod.snd h).symm
  subst hs2
  have hboard : (move_piece (update_turn s) f t).board =
      py_set (py_set s.board t.1 t.2 (b_at s.board f.1 f.2)) f.1 f.2 none := by
    unfold move_piece
    dsimp only
    rw [(update_turn_fields s).1]
  have hft2 : ¬(t.1 = f.1 ∧ t.2 = f.2) := fun hx => hft ⟨hx.1.symm, hx.2.symm⟩
  refine ⟨(update_turn_fields s).2.1, (update_turn_fields s).2.2.1,
    (update_turn_fields s).2.2.2, update_turn_player s, ?_, ?_, ?_⟩
  · rw [hboard]
    exact py_get_py_set_self (by rw [py_get_py_set_other hft]; exact hp) none
  · rw [hboard, py_get_py_set_other hft2,
      py_get_py_set_self hq (b_at s.board f.1 f.2), b_at_eq_some hp]
  · intro r c hrf hrt
    rw [hboard, py_get_py_set_other hrf, py_get_py_set_other hrt]

/-- Witness for C10 at the initial position and the pawn move
(6,4)-(4,4) (e2-e4); the frame clause is sampled at square (0,0). -/
theorem c10_noncapture_frame_witness :
    c10_after.game_state = new_game.game_state ∧
    c10_after.king_white = new_game.king_white ∧
    c10_after.king_black = new_game.king_black ∧
    c10_after.player_turn = (if new_game.player_turn = Color.white
                             then Color.black else Color.white) ∧
    py_get c10_after.board 6 4 = some none ∧
    py_get c10_after.board 4 4 = some (some (Piece.pawn Color.white true)) ∧
    py_get c10_after.board 0 0 = py_get new_game.board 0 0 := by
  have h := c10_noncapture_frame new_game (6, 4) (4, 4)
    (Piece.pawn Color.white true) c10_after (by decide) (by decide)
    (by decide) (by decide)
  exact ⟨h.1, h.2.1, h.2.2.1, h.2.2.2.1, h.2.2.2.2.1, h.2.2.2.2.2.1,
    h.2.2.2.2.2.2 0 0 (by decide) (by decide)⟩

theorem py_get_bounds {b : Board} {r c : Int} {w : Option Piece}
    (hlen : b.length = 8) (hrows : ∀ row ∈ b, row.length = 8)
    (h : py_get b r c = some w) :
    0 ≤ r ∧ r ≤ 7 ∧ 0 ≤ c ∧ c ≤ 7 := by
  unfold py_get at h
  by_cases hrc : 0 ≤ r ∧ 0 ≤ c
  · rw [if_pos hrc] at h
    cases hrow : b.get? r.toNat with
    | none => rw [hrow] at h; exact Option.noConfusion h
    | some row =>
      rw [hrow] at h
      simp only [Option.some_bind] at h
      have h1 : r.toNat < b.length :=
        (List.getElem?_eq_some_iff.mp (by rw [← List.get?_eq_getElem?]; exact hrow)).1
      have h2 : c.toNat < row.length :=
        (List.getElem?_eq_some_iff.mp (by rw [← List.get?_eq_getElem?]; exact h)).1
      have h3 := hrows row (List.get?_mem hrow)
      refine ⟨hrc.1, ?_, hrc.2, ?_⟩ <;> omega
  · rw [if_neg hrc] at h
    exact Option.noConfusion h

theorem mem_explosion_cells_center (t : Int × Int) :
    (t.1, t.2) ∈ explosion_cells t := by
  have he : (t.1, t.2) = (t.1 - 1 + 1, t.2 - 1 + 1) := by
    rw [Prod.mk.injEq]
    omega
  unfold explosion_cells
  rw [he]
  exact List.mem_cons_of_mem _ (List.mem_cons_of_mem _ (List.mem_cons_of_mem _
    (List.mem_cons_of_mem _ (List.mem_cons_self _ _))))

theorem update_win_board (x : GameState) : (update_win x).board = x.board := by
  unfold update_win
  split
  · rfl
  · split <;> rfl

theorem explosion_true_board {s : GameState} {t : Int × Int} {s3 : GameState}
    (heq : explosion s t = (true, s3)) :
    s3.board = explode_all (captured_board s.board t)
      (explosion_scan s.board (explosion_cells t)
        s.king_white s.king_black []).2.2 := by
  unfold explosion at heq
  dsimp only at heq
  split at heq
  · exact absurd (congrArg Prod.fst heq) (by simp)
  · exact (congrArg (fun z => z.2.board) heq).symm

theorem captured_board_pawn {bd : Board} {t : Int × Int} {q : Piece}
    (hq : py_get bd t.1 t.2 = some (some q)) (hqp : q.is_pawn = true) :
    captured_board bd t = py_set bd t.1 t.2 none := by
  unfold captured_board
  rw [b_at_eq_some hq]
  dsimp only
  rw [if_pos hqp]

theorem captured_board_not_pawn {bd : Board} {t : Int × Int} {q : Piece}
    (hq : py_get bd t.1 t.2 = some (some q)) (hqp : q.is_pawn = false) :
    captured_board bd t = bd := by
  unfold captured_board
  rw [b_at_eq_some hq]
  dsimp only
  rw [if_neg (by rw [hqp]; exact Bool.false_ne_true)]

/-- Claim C4, amended: for every successfully applied capture, the
destination square ends empty (the captured piece is removed even when
it is a pawn), the capturing piece is removed from its origin square,
and no other pawn anywhere on the board is removed by the explosion.
The hypotheses record what holds whenever `make_move` reaches this
call: the board is 8x8, the destination holds the captured piece, and
the origin square is a readable square (it holds the capturer). -/
theorem c4_explosion_pawn_rule (s : GameState) (f t : Int × Int)
    (s2 : GameState) (q : Piece)
    (hlen : s.board.length = 8) (hrows : ∀ row ∈ s.board, row.length = 8)
    (hq : py_get s.board t.1 t.2 = some (some q))
    (hf : (py_get s.board f.1 f.2).isSome = true)
    (h : update_board s f t true = (true, s2)) :
    py_get s2.board t.1 t.2 = some none ∧
    py_get s2.board f.1 f.2 = some none ∧
    (∀ (r c : Int) (cl : Color) (fl : Bool),
      ¬(r = f.1 ∧ c = f.2) → ¬(r = t.1 ∧ c = t.2) →
      py_get s.board r c = some (some (Piece.pawn cl fl)) →
      py_get s2.board r c = some (some (Piece.pawn cl fl))) := by
  obtain ⟨ht1, ht2, ht3, ht4⟩ := py_get_bounds hlen hrows hq
  have hguard : ¬(t.1 < 0 ∨ t.1 > 7 ∨ t.2 < 0 ∨ t.2 > 7) := by omega
  unfold update_board at h
  rw [if_pos rfl] at h
  dsimp only at h
  cases hexp0 : explosion (update_turn s) t with
  | mk b1 sE =>
    rw [hexp0] at h
    cases b1 with
    | false => exact absurd (congrArg Prod.fst h) (by simp)
    | true =>
      rw [if_neg (fun hc => Bool.noConfusion hc)] at h
      have hs2 : s2 = update_win { sE with board := py_set sE.board f.1 f.2 none } :=
        (congrArg Prod.snd h).symm
      have hs2b : s2.board = py_set sE.board f.1 f.2 none := by
        rw [hs2, update_win_board]
      have hE := explosion_true_board hexp0
      rw [(update_turn_fields s).1] at hE
      have key : py_get sE.board t.1 t.2 = some none ∧
          (py_get sE.board f.1 f.2).isSome = true ∧
          (∀ (r c : Int) (cl : Color) (fl : Bool),
            ¬(r = t.1 ∧ c = t.2) →
            py_get s.board r c = some (some (Piece.pawn cl fl)) →
            py_get sE.board r c = some (some (Piece.pawn cl fl))) := by
        by_cases hqp : q.is_pawn = true
        · rw [captured_board_pawn hq hqp] at hE
          refine ⟨?_, ?_, ?_⟩
          · rw [hE]
            exact explode_all_none_preserved _ _ t.1 t.2
              (py_get_py_set_self hq none)
          · rw [hE, explode_all_isSome, py_get_py_set_isSome]
            exact hf
          · intro r c cl fl hrt hpw
            rw [hE]
            exact explode_all_pawn_preserved _ _ r c cl fl
              (by rw [py_get_py_set_other hrt]; exact hpw)
        · have hqf : q.is_pawn = false := by
            cases hpb : q.is_pawn
            · rfl
            · exact absurd hpb hqp
          rw [captured_board_not_pawn hq hqf] at hE
          refine ⟨?_, ?_, ?_⟩
          · rw [hE]
            exact explode_all_clears_mem _ _ t.1 t.2 q
              (explosion_scan_mem s.board (explosion_cells t) _ _ [] t.1 t.2 q
                (mem_explosion_cells_center t) hguard (b_at_eq_some hq))
              hq hqf
          · rw [hE, explode_all_isSome]
            exact hf
          · intro r c cl fl hrt hpw
            rw [hE]
            exact explode_all_pawn_preserved _ _ r c cl fl hpw
      obtain ⟨hdt, hfs, hps⟩ := key
      refine ⟨?_, ?_, ?_⟩
      · rw [hs2b]
        by_cases hftc : t.1 = f.1 ∧ t.2 = f.2
        · obtain ⟨h1, h2⟩ := hftc
          rw [← h1, ← h2]
          exact py_get_py_set_self hdt none
        · rw [py_get_py_set_other hftc]
          exact hdt
      · rw [hs2b]
        cases hfso : py_get sE.board f.1 f.2 with
        | none => rw [hfso] at hfs; exact absurd hfs (by simp)
        | some w => exact py_get_py_set_self hfso none
      · intro r c cl fl hrf hrt hpw
        rw [hs2b, py_get_py_set_other hrf]
        exact hps r c cl fl hrt hpw

/-- Witness for the amended C4 at the concrete rook-takes-pawn capture
from `c4_state`: the captured pawn on (4,4) is removed, the rook is
removed from (4,0), and the bystander pawn on (6,6) survives. -/
theorem c4_explosion_pawn_rule_witness :
    py_get c4_upd.board 4 4 = some none ∧
    py_get c4_upd.board 4 0 = some none ∧
    py_get c4_upd.board 6 6 = some (some (Piece.pawn Color.white true)) := by
  have h := c4_explosion_pawn_rule c4_state (4, 0) (4, 4) c4_upd
    (Piece.pawn Color.black true) (by decide) (by decide) (by decide)
    (by decide) (by decide)
  exact ⟨h.1, h.2.1, h.2.2 6 6 Color.white true (by decide) (by decide) (by decide)⟩

end AtomicChess
